import Mathlib

/-!
Verification of the worldtalk real-time relay engine.

Shallow embedding of the server code (server/index.ts and the redis
collaborator module): texts are lists of UTF-16-style characters, machine
time is a natural number of milliseconds, the shared store and the
pub/sub bus are explicit state records, and each inbound-event handler is
a pure state-transition function translated from the corresponding
`switch` case of the websocket message handler.
-/

set_option maxRecDepth 10000

/-- JavaScript strings are modelled as lists of characters. -/
abbrev Str := List Char

/-- Coercion helper turning a Lean string literal into the model type. -/
def str (s : String) : Str := s.toList

/- ## Generic association-list maps (JS Map objects and Redis hashes) -/

/-- Lookup in an association list keyed by strings. -/
def alookup {α : Type} (l : List (Str × α)) (k : Str) : Option α :=
  (l.find? (fun p => p.1 = k)).map (·.2)

/-- Overwrite-or-insert in an association list keyed by strings. -/
def aset {α : Type} (l : List (Str × α)) (k : Str) (v : α) : List (Str × α) :=
  (k, v) :: l.filter (fun p => ¬ p.1 = k)

/- ## Text sanitization (server/index.ts, sanitizeText) -/

/-- One global-replace pass: `s.replace(/target/g, repl)` for a single
character pattern. -/
def replaceAll (target : Char) (repl : Str) (s : Str) : Str :=
  (s.map (fun c => if c = target then repl else [c])).flatten

/-- The whitespace class trimmed by `String.prototype.trim`. -/
def isJsWhitespace (c : Char) : Bool :=
  c = ' ' || c = '\t' || c = '\n' || c = '\r' || c = '\x0b' || c = '\x0c'

/-- `String.prototype.trim`: drop whitespace from both ends. -/
def jsTrim (s : Str) : Str :=
  ((s.dropWhile isJsWhitespace).reverse.dropWhile isJsWhitespace).reverse

/-- The right-side trim (jsTrim is the left trim followed by this). -/
def rtrimJs (l : Str) : Str := (l.reverse.dropWhile isJsWhitespace).reverse

/-- `sanitizeText` from server/index.ts: escape `<`, `>`, `"` then trim. -/
def sanitizeText (s : Str) : Str :=
  jsTrim (replaceAll '"' (str "&quot;")
    (replaceAll '>' (str "&gt;")
      (replaceAll '<' (str "&lt;") s)))

/- ## Rate limiter (server/index.ts, checkRateLimit) -/

def RATE_LIMIT_WINDOW : Nat := 60000

def MAX_MESSAGES_PER_MINUTE : Nat := 120

def MAX_TYPING_PER_MINUTE : Nat := 120

/-- The two action classes tracked by the rate limiter. -/
inductive RLType where
  | messages
  | typing
deriving DecidableEq

/-- One entry of the `rateLimits` map. -/
structure Limits where
  messages : List Nat
  typing : List Nat
deriving DecidableEq

def Limits.get (l : Limits) : RLType → List Nat
  | .messages => l.messages
  | .typing => l.typing

def Limits.set (l : Limits) : RLType → List Nat → Limits
  | .messages, ts => { l with messages := ts }
  | .typing, ts => { l with typing := ts }

/-- The `rateLimits` map, with the absent entry read as the fresh
`{ messages: [], typing: [] }` object the code inserts on demand. -/
abbrev RLMap := Str → Limits

def rlInit : RLMap := fun _ => ⟨[], []⟩

def rlSet (rl : RLMap) (cid : Str) (l : Limits) : RLMap :=
  fun c => if c = cid then l else rl c

/-- The list of recorded timestamps for one identity and class. -/
def rlEntry (rl : RLMap) (cid : Str) (ty : RLType) : List Nat :=
  (rl cid).get ty

/-- `checkRateLimit(clientId, type)` at current time `now`: filter out
timestamps with `now - t >= RATE_LIMIT_WINDOW`, deny when at least the
per-class ceiling remain, otherwise record `now` and allow. -/
def checkRateLimit (rl : RLMap) (cid : Str) (ty : RLType) (now : Nat) : Bool × RLMap :=
  let limits := rl cid
  let kept := (limits.get ty).filter (fun t => now - t < RATE_LIMIT_WINDOW)
  let maxAllowed := match ty with
    | .messages => MAX_MESSAGES_PER_MINUTE
    | .typing => MAX_TYPING_PER_MINUTE
  if maxAllowed ≤ kept.length then
    (false, rlSet rl cid (limits.set ty kept))
  else
    (true, rlSet rl cid (limits.set ty (kept ++ [now])))

/-- One call to the rate limiter in a trace. -/
structure Call where
  cid : Str
  ty : RLType
  now : Nat

/-- Run a trace of rate-limiter calls. -/
def runRL (rl : RLMap) : List Call → RLMap
  | [] => rl
  | c :: cs => runRL (checkRateLimit rl c.cid c.ty c.now).2 cs

/-- The timestamps of the calls for identity `cid` and class `ty` that the
rate limiter accepted, in trace order. -/
def acceptedTimes (rl : RLMap) (cid : Str) (ty : RLType) : List Call → List Nat
  | [] => []
  | c :: cs =>
    let r := checkRateLimit rl c.cid c.ty c.now
    (if c.cid = cid ∧ c.ty = ty ∧ r.1 = true then [c.now] else []) ++
      acceptedTimes r.2 cid ty cs

/- ## Session and location state (server/index.ts) -/

/-- A session location: `{lat, lng, city?, country?}`. Coordinates are
modelled as rationals; `city`/`country` are optional strings, where the
code tests them for JavaScript truthiness (present and nonempty). -/
structure GeoLocation where
  lat : ℚ
  lng : ℚ
  city : Option Str
  country : Option Str
deriving DecidableEq

/-- JavaScript truthiness of an optional string field. -/
def truthy : Option Str → Bool
  | some s => s ≠ []
  | none => false

/-- The per-connection session entry of the `clients` map. -/
structure Client where
  id : Str
  fingerprint : Str
  visitorId : Option Str
  location : GeoLocation
  connectedAt : Nat
deriving DecidableEq

/- ## Reply cache (server/index.ts, recentMessages) -/

def MESSAGE_TTL : Nat := 35000

/-- One entry of the `recentMessages` cache. -/
structure CachedMsg where
  text : Str
  lat : ℚ
  lng : ℚ
  timestamp : Nat
deriving DecidableEq

/-- The `recentMessages` map, id to cached entry. -/
abbrev MsgCache := List (Str × CachedMsg)

def cacheLookup (c : MsgCache) (id : Str) : Option CachedMsg :=
  alookup c id

/-- `cacheMessage(id, text, lat, lng)` at current time `now`. -/
def cacheMessage (c : MsgCache) (id : Str) (text : Str) (lat lng : ℚ) (now : Nat) : MsgCache :=
  aset c id ⟨text, lat, lng, now⟩

/-- `cleanupOldMessages()` at current time `now`: delete every entry with
`now - timestamp > MESSAGE_TTL`. -/
def cleanupOldMessages (now : Nat) (c : MsgCache) : MsgCache :=
  c.filter (fun p => ¬ (MESSAGE_TTL < now - p.2.timestamp))

/- ## Leaderboard (redis module, incrementCityMessages) -/

/-- The sorted-set member key `city + '|' + country`. -/
def lbKey (city country : Str) : Str := city ++ '|' :: country

/-- The leaderboard sorted set, member key to score. -/
abbrev Leaderboard := Str → Nat

def lbInit : Leaderboard := fun _ => 0

/-- `incrementCityMessages(city, country)`: `zIncrBy(LEADERBOARD_KEY, 1,
city + '|' + country)`. -/
def incrementCityMessages (city country : Str) (lb : Leaderboard) : Leaderboard :=
  fun k => if k = lbKey city country then lb k + 1 else lb k

/-- The leaderboard update performed for an accepted message: increment
only when the sender location carries a truthy city, using
`client.location.country || ''` for the country. -/
def lbAfterMessage (city country : Option Str) (lb : Leaderboard) : Leaderboard :=
  if truthy city then incrementCityMessages (city.getD []) (country.getD []) lb else lb

/-- City and country of the sender of one accepted message. -/
abbrev LocTag := Option Str × Option Str

/-- Fold the leaderboard updates of a chronological list of accepted
messages, given by the city/country of each sender. -/
def runLB (lb : Leaderboard) : List LocTag → Leaderboard
  | [] => lb
  | e :: es => runLB (lbAfterMessage e.1 e.2 lb) es

/- ## The message event (server/index.ts, case 'message') -/

def MAX_MESSAGE_LENGTH : Nat := 280

/-- The fields of an inbound `message` event that the handler reads.
`text` is `data.text || ''` (a missing text reads as empty), `encrypted`
is `!!data.encrypted`, and `replyTo` keeps the raw optional string so the
`data.replyTo && typeof data.replyTo === 'string'` truthiness test can be
translated faithfully. -/
structure MsgData where
  text : Str
  encrypted : Bool
  encryptedFor : Option Str
  replyTo : Option Str

/-- The outbound broadcast payload built by the `message` case. -/
structure BroadcastMsg where
  id : Str
  text : Str
  lat : ℚ
  lng : ℚ
  timestamp : Nat
  encrypted : Bool
  encryptedFor : Option Str
  senderId : Str
  senderFingerprint : Str
  instanceId : Str
  replyTo : Option Str := none
  replyToText : Option Str := none
  replyToLat : Option ℚ := none
  replyToLng : Option ℚ := none
deriving DecidableEq

/-- Outcome of the `message` case for one inbound event. -/
inductive MsgOutcome where
  | rateLimited
  | dropped
  | accepted (b : BroadcastMsg)
deriving DecidableEq

/-- The `case 'message'` handler: rate limit, trim and length-check the
text, sanitize unless encrypted, resolve the reply context from the
cache, cache the new message, and update the leaderboard when the sender
location carries a city. `freshId` stands for the generated UUID. -/
def handleMessage (rl : RLMap) (cache : MsgCache) (lb : Leaderboard)
    (client : Client) (data : MsgData) (now : Nat) (freshId : Str)
    (instanceId : Str) : MsgOutcome × RLMap × MsgCache × Leaderboard :=
  let r := checkRateLimit rl client.id .messages now
  if r.1 = false then (.rateLimited, r.2, cache, lb)
  else
    let text := jsTrim data.text
    if text = [] ∨ MAX_MESSAGE_LENGTH < text.length then (.dropped, r.2, cache, lb)
    else
      let safeText := if data.encrypted then data.text else sanitizeText text
      let base : BroadcastMsg :=
        { id := freshId
          text := safeText
          lat := client.location.lat
          lng := client.location.lng
          timestamp := now
          encrypted := data.encrypted
          encryptedFor := data.encryptedFor
          senderId := client.fingerprint
          senderFingerprint := client.fingerprint
          instanceId := instanceId }
      let bmsg :=
        match data.replyTo with
        | some rid =>
          if rid ≠ [] then
            match cacheLookup cache rid with
            | some parent =>
              { base with
                replyTo := some rid
                replyToText := some (parent.text.take 50)
                replyToLat := some parent.lat
                replyToLng := some parent.lng }
            | none => base
          else base
        | none => base
      let cache' := cacheMessage cache bmsg.id safeText client.location.lat client.location.lng now
      let lb' := lbAfterMessage client.location.city client.location.country lb
      (.accepted bmsg, r.2, cache', lb')

/- ## Online-count store (redis module, updateOnlineCount / getTotalOnlineCount) -/

/-- The `worldtalk:users:online` hash together with the expiry deadline of
the hash key itself (`expire` is issued on the whole key, so one deadline
governs every field). `deadline = none` means the key does not exist. -/
structure OnlineStore where
  fields : List (Str × Nat)
  deadline : Option Nat
deriving DecidableEq

def onlineInit : OnlineStore := ⟨[], none⟩

/-- The fields visible at time `now`: the whole hash vanishes once its
single shared deadline has passed. -/
def hashLive (s : OnlineStore) (now : Nat) : List (Str × Nat) :=
  match s.deadline with
  | some d => if now < d then s.fields else []
  | none => []

/-- `hSet` on the hash: overwrite or insert one field. -/
def hsetField (fs : List (Str × Nat)) (k : Str) (v : Nat) : List (Str × Nat) :=
  aset fs k v

/-- `updateOnlineCount(count, instanceId)` at time `now`: write this
instance field into the (possibly expired, hence recreated) hash, then
re-arm the expiry of the whole key to 60 time-units from now. -/
def updateOnlineCount (s : OnlineStore) (instanceId : Str) (count : Nat) (now : Nat) : OnlineStore :=
  { fields := hsetField (hashLive s now) instanceId count
    deadline := some (now + 60) }

/-- `getTotalOnlineCount()` at time `now`: sum every field of the hash. -/
def getTotalOnlineCount (s : OnlineStore) (now : Nat) : Nat :=
  (hashLive s now).foldl (fun sum p => sum + p.2) 0

/-- One heartbeat `updateOnlineCount` call in a trace. -/
structure OnlineUpdate where
  instId : Str
  count : Nat
  time : Nat

/-- Run a chronological trace of heartbeats against the store. -/
def runOnline (s : OnlineStore) : List OnlineUpdate → OnlineStore
  | [] => s
  | u :: us => runOnline (updateOnlineCount s u.instId u.count u.time) us

/-- The latest (count, time) an instance wrote in a trace, if any. -/
def lastHeartbeat (tr : List OnlineUpdate) (i : Str) : Option (Nat × Nat) :=
  tr.foldl (fun acc u => if u.instId = i then some (u.count, u.time) else acc) none

/-- Claimed total, written from the words of the claim rather than from
the code, for comparison: each instance record carries its own 60-unit
expiry refreshed by that instance, and the total sums exactly the records
whose own expiry has not elapsed. -/
def perInstanceExpiryTotal (tr : List OnlineUpdate) (now : Nat) : Nat :=
  ((tr.map OnlineUpdate.instId).dedup).foldl
    (fun acc i =>
      match lastHeartbeat tr i with
      | some (c, t) => if now < t + 60 then acc + c else acc
      | none => acc)
    0

/- ## Identify event (server/index.ts, case 'identify') -/

/-- One character of the `^[a-zA-Z0-9]{10,32}$` visitor-id pattern. -/
def isAlnum (c : Char) : Bool :=
  ('a' ≤ c && c ≤ 'z') || ('A' ≤ c && c ≤ 'Z') || ('0' ≤ c && c ≤ '9')

/-- `VALID_VISITOR_ID_REGEX.test`: 10 to 32 alphanumeric characters. -/
def isValidVisitorId (v : Str) : Bool :=
  10 ≤ v.length && v.length ≤ 32 && v.all isAlnum

/-- A user record written to the shared presence store. -/
structure RedisUser where
  id : Str
  visitorId : Str
  lat : ℚ
  lng : ℚ
  city : Option Str
  country : Option Str
  instanceId : Str
deriving DecidableEq

/-- An event published on the bus by the identify path. -/
inductive PubEvent where
  | usersUpdate (users : List RedisUser)
deriving DecidableEq

def USER_TTL : Nat := 30

/-- State touched by the `identify` handler: the session, the shared
per-user presence keys (each with its own deadline), the set of seen
fingerprints with the all-time counter, and the log of published
events (most recent first). -/
structure IdentifyState where
  client : Client
  presence : List (Str × RedisUser × Nat)
  seen : List Str
  allTime : Nat
  published : List PubEvent
deriving DecidableEq

def presenceLookup (p : List (Str × RedisUser × Nat)) (id : Str) : Option (RedisUser × Nat) :=
  alookup p id

def presenceSet (p : List (Str × RedisUser × Nat)) (id : Str) (u : RedisUser) (dl : Nat) :
    List (Str × RedisUser × Nat) :=
  aset p id (u, dl)

/-- `getAllUsers()` at time `now`: every unexpired presence record. -/
def getAllUsers (p : List (Str × RedisUser × Nat)) (now : Nat) : List RedisUser :=
  (p.filter (fun q => now < q.2.2)).map (fun q => q.2.1)

/-- `addUser(user)` at time `now`: `setEx` the per-user key with a 30
time-unit TTL, then publish the full presence list. -/
def addUser (st : IdentifyState) (u : RedisUser) (now : Nat) : IdentifyState :=
  let p := presenceSet st.presence u.id u (now + USER_TTL)
  { st with
    presence := p
    published := PubEvent.usersUpdate (getAllUsers p now) :: st.published }

/-- `incrementAllTimeUsers(fingerprint)`: increment only when the
fingerprint has not been seen before. -/
def incrementAllTimeUsers (st : IdentifyState) (fp : Str) : IdentifyState :=
  if fp ∈ st.seen then st
  else { st with seen := fp :: st.seen, allTime := st.allTime + 1 }

/-- The `case 'identify'` handler at time `now`: on a truthy, valid
visitor id, override the session fingerprint with its first 12
characters, count the fingerprint once if it changed, and re-register the
presence record. -/
def identifyEvent (st : IdentifyState) (v : Option Str) (now : Nat) (instanceId : Str) :
    IdentifyState :=
  match v with
  | some vid =>
    if vid ≠ [] ∧ isValidVisitorId vid = true then
      let old := st.client.fingerprint
      let c1 := { st.client with visitorId := some vid, fingerprint := vid.take 12 }
      let st1 := { st with client := c1 }
      let st2 := if old ≠ c1.fingerprint then incrementAllTimeUsers st1 c1.fingerprint else st1
      addUser st2
        { id := c1.id
          visitorId := c1.fingerprint
          lat := c1.location.lat
          lng := c1.location.lng
          city := c1.location.city
          country := c1.location.country
          instanceId := instanceId } now
    else st
  | none => st

/- ## Update-location event (server/index.ts, isValidLatLng / case 'update_location') -/

/-- A JavaScript value as seen by the coordinate validator: a finite
number (modelled as a rational), one of the non-finite numbers, or a
value whose `typeof` is not `'number'`. -/
inductive JSVal where
  | num (q : ℚ)
  | nan
  | posInf
  | negInf
  | nonNumber
deriving DecidableEq

/-- `typeof v === 'number'` (NaN and the infinities are numbers). -/
def JSVal.typeofNumber : JSVal → Bool
  | .nonNumber => false
  | _ => true

/-- JavaScript `v >= q` for a number `v` (false on NaN). -/
def JSVal.jsGE : JSVal → ℚ → Bool
  | .num x, q => q ≤ x
  | .nan, _ => false
  | .posInf, _ => true
  | .negInf, _ => false
  | .nonNumber, _ => false

/-- JavaScript `v <= q` for a number `v` (false on NaN). -/
def JSVal.jsLE : JSVal → ℚ → Bool
  | .num x, q => x ≤ q
  | .nan, _ => false
  | .posInf, _ => false
  | .negInf, _ => true
  | .nonNumber, _ => false

/-- `isFinite(v)` on a number value. -/
def JSVal.jsFinite : JSVal → Bool
  | .num _ => true
  | _ => false

/-- The rational carried by a finite number (defaulting elsewhere; only
read behind a successful validation). -/
def JSVal.toQ : JSVal → ℚ
  | .num q => q
  | _ => 0

/-- `isValidLatLng(lat, lng)` from server/index.ts. -/
def isValidLatLng (lat lng : JSVal) : Bool :=
  lat.typeofNumber && lng.typeofNumber &&
    lat.jsGE (-90) && lat.jsLE 90 && lng.jsGE (-180) && lng.jsLE 180 &&
    lat.jsFinite && lng.jsFinite

/-- The `case 'update_location'` handler: on valid coordinates mutate the
session location and trigger `broadcastUserList()`; the boolean records
whether that presence re-broadcast was triggered. -/
def updateLocationEvent (c : Client) (lat lng : JSVal) : Client × Bool :=
  if isValidLatLng lat lng = true then
    ({ c with location := { c.location with lat := lat.toQ, lng := lng.toQ } }, true)
  else (c, false)

/- ## Subscription fan-in (server/index.ts, subscribeToMessages handler) -/

/-- The `subscribeToMessages` callback of an instance with id `localId`:
a looped-back payload authored by this very instance is dropped, every
other payload is re-broadcast to the local sessions. -/
def onSubscribedMessage (localId : Str) (msg : BroadcastMsg) : Option BroadcastMsg :=
  if msg.instanceId = localId then none else some msg

/-- Copies of one published message delivered to a single client that is
locally connected to the instance `localId`, assuming the pub/sub bus
hands the publication to every instance exactly once: one copy from the
synchronous local broadcast when this instance authored the message, plus
one copy from the subscription callback unless it drops the payload. -/
def copiesDelivered (localId : Str) (msg : BroadcastMsg) : Nat :=
  (if msg.instanceId = localId then 1 else 0) +
    (match onSubscribedMessage localId msg with
     | some _ => 1
     | none => 0)

/- ## Concrete values used by witnesses and counterexamples -/

/-- A concrete session used to instantiate scenario theorems. -/
def testClient : Client :=
  { id := str "c1"
    fingerprint := str "fp1"
    visitorId := none
    location := { lat := 1, lng := 2, city := some (str "Rome"), country := some (str "Italy") }
    connectedAt := 0 }

/-- A second concrete session (the replying client of scenario B). -/
def testClientB : Client :=
  { id := str "c2"
    fingerprint := str "fp2"
    visitorId := none
    location := { lat := 3, lng := 4, city := some (str "Oslo"), country := some (str "Norway") }
    connectedAt := 0 }

/-- The broadcast payload of an accepted outcome, if any. -/
def outcomeMsg : MsgOutcome → Option BroadcastMsg
  | .accepted b => some b
  | _ => none

/-- The text of the broadcast payload of an accepted outcome, if any. -/
def outcomeText (o : MsgOutcome) : Option Str :=
  (outcomeMsg o).map (·.text)

/-- The reply-preview fields of the broadcast payload of an accepted
outcome, if any. -/
def outcomeReplyPreview (o : MsgOutcome) : Option (Option Str × Option ℚ × Option ℚ) :=
  (outcomeMsg o).map (fun b => (b.replyToText, b.replyToLat, b.replyToLng))

/-- Rate-limiter state invariant used by the window-bound proof: up to
window filtering at any time from `b` on, the stored entry of every
identity and class agrees with the accepted-call history `acc`. -/
def RLInv (rl : RLMap) (acc : Str → RLType → List Nat) (b : Nat) : Prop :=
  ∀ cid ty n, b ≤ n →
    (rlEntry rl cid ty).filter (fun t => n - t < RATE_LIMIT_WINDOW)
      = (acc cid ty).filter (fun t => n - t < RATE_LIMIT_WINDOW)

/-- Heartbeat trace for the online-count scenarios: instance i1 reports 5
clients once at time 0 and then goes silent, instance i2 reports 3
clients and keeps refreshing every 40 time-units. -/
def c2Trace : List OnlineUpdate :=
  [⟨str "i1", 5, 0⟩, ⟨str "i2", 3, 10⟩, ⟨str "i2", 3, 50⟩, ⟨str "i2", 3, 90⟩,
   ⟨str "i2", 3, 130⟩]

/-- Accepted-message tags for the leaderboard key-collision scenario:
one message from city `a|b` in country `c`, one from city `a` in
country `b|c`. -/
def c7Trace : List LocTag :=
  [(some (str "a|b"), some (str "c")), (some (str "a"), some (str "b|c"))]

/-- Initial state for the identify scenarios. -/
def c8Init : IdentifyState := ⟨testClient, [], [], 0, []⟩

/-- A valid visitor id (10 alphanumeric characters). -/
def c8Vid : Str := str "abcdefghij"

/-- The broadcast payload produced for a concrete encrypted message whose
raw text is "  x " (leading and trailing blanks kept verbatim). -/
def c5Msg : BroadcastMsg :=
  { id := str "m1"
    text := str "  x "
    lat := 1
    lng := 2
    timestamp := 0
    encrypted := true
    encryptedFor := none
    senderId := str "fp1"
    senderFingerprint := str "fp1"
    instanceId := str "wt" }

/-- Scenario B, first event: client A sends the message "hi" at time 0. -/
def c3msgA : MsgData := ⟨str "hi", false, none, none⟩

/-- Scenario B, second event: client B replies to the id of the first
message. -/
def c3msgB : MsgData := ⟨str "re", false, none, some (str "mA")⟩

/-- The reply cache after the first scenario-B message is handled. -/
def c3CacheA : MsgCache :=
  (handleMessage rlInit [] lbInit testClient c3msgA 0 (str "mA") (str "wt")).2.2.1

/-- The reply cache after the periodic sweeps at 10, 20 and 30
time-units. -/
def c3CacheSwept : MsgCache :=
  cleanupOldMessages 30000 (cleanupOldMessages 20000 (cleanupOldMessages 10000 c3CacheA))

/-- The outcome of the scenario-B reply sent 36 time-units after the
original message was cached. -/
def c3ReplyOutcome : MsgOutcome :=
  (handleMessage rlInit c3CacheSwept lbInit testClientB c3msgB 36000 (str "mB") (str "wt")).1

/- ## Lemmas about replaceAll and jsTrim -/

theorem replaceAll_nil (t : Char) (r : Str) : replaceAll t r [] = [] := rfl

theorem replaceAll_cons (t : Char) (r : Str) (c : Char) (s : Str) :
    replaceAll t r (c :: s) = (if c = t then r else [c]) ++ replaceAll t r s := by
  simp [replaceAll]

theorem mem_replaceAll {t : Char} {r s : Str} {c : Char}
    (h : c ∈ replaceAll t r s) : c ∈ r ∨ c ∈ s := by
  induction s with
  | nil => simp [replaceAll] at h
  | cons a s ih =>
    rw [replaceAll_cons] at h
    rcases List.mem_append.mp h with h1 | h2
    · by_cases hat : a = t
      · simp [hat] at h1
        exact Or.inl h1
      · simp [hat] at h1
        exact Or.inr (by simp [h1])
    · rcases ih h2 with h3 | h3
      · exact Or.inl h3
      · exact Or.inr (List.mem_cons_of_mem a h3)

theorem target_not_mem_replaceAll {t : Char} {r : Str} (hr : t ∉ r) (s : Str) :
    t ∉ replaceAll t r s := by
  induction s with
  | nil => simp [replaceAll]
  | cons a s ih =>
    rw [replaceAll_cons]
    intro h
    rcases List.mem_append.mp h with h1 | h2
    · by_cases hat : a = t
      · simp [hat] at h1
        exact hr h1
      · simp [hat] at h1
        exact hat h1.symm
    · exact ih h2

theorem replaceAll_eq_self {t : Char} {s : Str} (h : t ∉ s) (r : Str) :
    replaceAll t r s = s := by
  induction s with
  | nil => rfl
  | cons a s ih =>
    rw [replaceAll_cons]
    have hat : ¬ a = t := fun he => h (by simp [he])
    have hs : t ∉ s := fun hm => h (List.mem_cons_of_mem a hm)
    simp [hat, ih hs]

theorem dropWhile_idem (p : Char → Bool) (l : Str) :
    (l.dropWhile p).dropWhile p = l.dropWhile p := by
  induction l with
  | nil => rfl
  | cons a l ih =>
    by_cases h : p a
    · simp [List.dropWhile_cons, h, ih]
    · simp [List.dropWhile_cons, h]

theorem dropWhile_decomposition (p : Char → Bool) (l : Str) :
    ∃ u, l = u ++ l.dropWhile p := by
  induction l with
  | nil => exact ⟨[], rfl⟩
  | cons a l ih =>
    by_cases h : p a
    · obtain ⟨u, hu⟩ := ih
      exact ⟨a :: u, by simp [List.dropWhile_cons, h]; exact hu⟩
    · exact ⟨[], by simp [List.dropWhile_cons, h]⟩

theorem mem_dropWhile {p : Char → Bool} {l : Str} {c : Char}
    (h : c ∈ l.dropWhile p) : c ∈ l := by
  obtain ⟨u, hu⟩ := dropWhile_decomposition p l
  rw [hu]
  exact List.mem_append_right u h

theorem mem_jsTrim {s : Str} {c : Char} (h : c ∈ jsTrim s) : c ∈ s := by
  unfold jsTrim at h
  rw [List.mem_reverse] at h
  have h1 := mem_dropWhile h
  rw [List.mem_reverse] at h1
  exact mem_dropWhile h1

theorem dropWhile_eq_self_of_head_false {p : Char → Bool} {a : Char} {l : Str}
    (h : p a = false) : (a :: l).dropWhile p = a :: l := by
  simp [List.dropWhile_cons, h]

theorem length_dropWhile_le (p : Char → Bool) (l : Str) :
    (l.dropWhile p).length ≤ l.length := by
  induction l with
  | nil => simp
  | cons a l ih =>
    by_cases h : p a
    · simp [List.dropWhile_cons, h]
      exact Nat.le_succ_of_le ih
    · simp [List.dropWhile_cons, h]

theorem head_false_of_dropWhile_eq_self {p : Char → Bool} {a : Char} {l : Str}
    (h : (a :: l).dropWhile p = a :: l) : p a = false := by
  by_cases hp : p a
  · exfalso
    rw [List.dropWhile_cons, if_pos hp] at h
    have := length_dropWhile_le p l
    rw [h] at this
    simp at this
  · exact Bool.eq_false_iff.mpr hp

theorem jsTrim_eq (s : Str) : jsTrim s = rtrimJs (s.dropWhile isJsWhitespace) := rfl

theorem rtrimJs_idem (l : Str) : rtrimJs (rtrimJs l) = rtrimJs l := by
  unfold rtrimJs
  rw [List.reverse_reverse, dropWhile_idem]

theorem rtrimJs_append (l : Str) : ∃ u, l = rtrimJs l ++ u := by
  obtain ⟨v, hv⟩ := dropWhile_decomposition isJsWhitespace l.reverse
  refine ⟨v.reverse, ?_⟩
  unfold rtrimJs
  calc l = l.reverse.reverse := by rw [List.reverse_reverse]
  _ = ((l.reverse.dropWhile isJsWhitespace).reverse ++ v.reverse) := by
        rw [← List.reverse_append, ← hv]

theorem ltrim_rtrim_ltrim (l : Str) :
    (rtrimJs (l.dropWhile isJsWhitespace)).dropWhile isJsWhitespace
      = rtrimJs (l.dropWhile isJsWhitespace) := by
  set w := l.dropWhile isJsWhitespace with hw
  have hwid : w.dropWhile isJsWhitespace = w := by
    rw [hw, dropWhile_idem]
  rcases hr : rtrimJs w with _ | ⟨a, t⟩
  · rfl
  · obtain ⟨u, hu⟩ := rtrimJs_append w
    rw [hr] at hu
    have hhead : isJsWhitespace a = false := by
      have : w.dropWhile isJsWhitespace = w := hwid
      rw [hu] at this
      rcases hcase : isJsWhitespace a with _ | _
      · rfl
      · exfalso
        rw [List.cons_append, List.dropWhile_cons, if_pos hcase] at this
        have hlen := length_dropWhile_le isJsWhitespace (t ++ u)
        rw [this] at hlen
        simp at hlen
    exact dropWhile_eq_self_of_head_false hhead

theorem jsTrim_idem (s : Str) : jsTrim (jsTrim s) = jsTrim s := by
  rw [jsTrim_eq, jsTrim_eq, ltrim_rtrim_ltrim, rtrimJs_idem]

/-- C4. Sanitization is idempotent and its output contains no `<`, `>`,
or `"`: `sanitizeText (sanitizeText x) = sanitizeText x`, and none of the
three escaped characters occurs in `sanitizeText x`. -/
theorem sanitizeText_idempotent_and_safe (x : Str) :
    sanitizeText (sanitizeText x) = sanitizeText x ∧
      '<' ∉ sanitizeText x ∧ '>' ∉ sanitizeText x ∧ '"' ∉ sanitizeText x := by
  have hlt : ∀ s : Str, '<' ∉ sanitizeText s := by
    intro s h
    have h1 := mem_jsTrim h
    rcases mem_replaceAll h1 with h2 | h2
    · simp [str] at h2
    · rcases mem_replaceAll h2 with h3 | h3
      · simp [str] at h3
      · exact target_not_mem_replaceAll (by simp [str]) s h3
  have hgt : ∀ s : Str, '>' ∉ sanitizeText s := by
    intro s h
    have h1 := mem_jsTrim h
    rcases mem_replaceAll h1 with h2 | h2
    · simp [str] at h2
    · exact target_not_mem_replaceAll (by simp [str]) _ h2
  have hq : ∀ s : Str, '"' ∉ sanitizeText s := by
    intro s h
    exact target_not_mem_replaceAll (by simp [str]) _ (mem_jsTrim h)
  have hclean : ∀ y : Str, '<' ∉ y → '>' ∉ y → '"' ∉ y → sanitizeText y = jsTrim y := by
    intro y h1 h2 h3
    unfold sanitizeText
    rw [replaceAll_eq_self h1 (str "&lt;"), replaceAll_eq_self h2 (str "&gt;"),
      replaceAll_eq_self h3 (str "&quot;")]
  have hfix : jsTrim (sanitizeText x) = sanitizeText x := by
    unfold sanitizeText
    exact jsTrim_idem _
  exact ⟨by rw [hclean (sanitizeText x) (hlt x) (hgt x) (hq x), hfix], hlt x, hgt x, hq x⟩

/- ## C6: subscription self-suppression -/

/-- C6. The subscription handler drops exactly the payloads whose
`instanceId` equals the local instance id, so a client connected to any
instance receives exactly one copy of a published message: the authoring
instance delivers it through its synchronous local broadcast and
suppresses its own publication echo, every other instance delivers it
through the subscription callback. -/
theorem subscription_self_suppression (localId : Str) (msg : BroadcastMsg) :
    (onSubscribedMessage localId msg = none ↔ msg.instanceId = localId) ∧
      copiesDelivered localId msg = 1 := by
  unfold copiesDelivered onSubscribedMessage
  by_cases h : msg.instanceId = localId <;> simp [h]

/- ## C9: update_location validation -/

/-- C9. An `update_location` event whose latitude is outside [-90, 90] or
longitude outside [-180, 180], or whose coordinates are non-finite or not
numbers, leaves the session location unchanged and triggers no presence
re-broadcast (in particular lat = 91 is invalid for every longitude);
valid coordinates mutate the location and trigger the re-broadcast. -/
theorem update_location_validation (c : Client) (lat lng : JSVal) :
    (isValidLatLng lat lng = false → updateLocationEvent c lat lng = (c, false)) ∧
      (isValidLatLng lat lng = true →
        updateLocationEvent c lat lng =
          ({ c with location := { c.location with lat := lat.toQ, lng := lng.toQ } }, true)) ∧
      (∀ v : JSVal, isValidLatLng (JSVal.num 91) v = false) ∧
      isValidLatLng JSVal.nan (JSVal.num 0) = false ∧
      isValidLatLng (JSVal.num 0) JSVal.posInf = false ∧
      isValidLatLng JSVal.nonNumber (JSVal.num 0) = false := by
  refine ⟨?_, ?_, ?_, by decide, by decide, by decide⟩
  · intro h
    simp [updateLocationEvent, h]
  · intro h
    simp [updateLocationEvent, h]
  · intro v
    have h91 : (JSVal.num 91).jsLE 90 = false := by decide
    simp [isValidLatLng, h91]

/-- Witness for C9: the scenario-A input lat = 91 applied to a concrete
session leaves it unchanged with no re-broadcast. -/
theorem update_location_validation_witness :
    updateLocationEvent testClient (JSVal.num 91) (JSVal.num 0) = (testClient, false) :=
  (update_location_validation testClient (JSVal.num 91) (JSVal.num 0)).1
    ((update_location_validation testClient (JSVal.num 91) (JSVal.num 0)).2.2.1 (JSVal.num 0))

/- ## C5: encrypted passthrough -/

/-- C5. An accepted inbound message marked encrypted is broadcast with a
text identical to the inbound `data.text` (no sanitization, escaping or
trimming), while an accepted message not marked encrypted is broadcast
with the sanitized form of its trimmed text. -/
theorem message_encrypted_passthrough (rl : RLMap) (cache : MsgCache) (lb : Leaderboard)
    (client : Client) (data : MsgData) (now : Nat) (freshId instanceId : Str)
    (b : BroadcastMsg)
    (h : outcomeMsg (handleMessage rl cache lb client data now freshId instanceId).1 = some b) :
    (data.encrypted = true → b.text = data.text) ∧
      (data.encrypted = false → b.text = sanitizeText (jsTrim data.text)) := by
  simp only [handleMessage] at h
  split at h
  · simp [outcomeMsg] at h
  · split at h
    · simp [outcomeMsg] at h
    · split at h
      · split at h
        · split at h
          · simp only [outcomeMsg, Option.some.injEq] at h
            subst h
            cases hd : data.encrypted <;> simp [hd]
          · simp only [outcomeMsg, Option.some.injEq] at h
            subst h
            cases hd : data.encrypted <;> simp [hd]
        · simp only [outcomeMsg, Option.some.injEq] at h
          subst h
          cases hd : data.encrypted <;> simp [hd]
      · simp only [outcomeMsg, Option.some.injEq] at h
        subst h
        cases hd : data.encrypted <;> simp [hd]

/-- Witness for C5: the encrypted message with raw text "  x " is
broadcast byte-for-byte unchanged, blanks included. -/
theorem message_encrypted_passthrough_witness : c5Msg.text = str "  x " :=
  (message_encrypted_passthrough rlInit [] lbInit testClient ⟨str "  x ", true, none, none⟩
    0 (str "m1") (str "wt") c5Msg (by decide)).1 rfl

/- ## C10: length ceiling checked before sanitization -/

/-- C10. The 280-unit length ceiling is applied to the trimmed text
before sanitization, and sanitization expands each escaped character, so
an accepted non-encrypted message can be broadcast with more than 280
characters: the input of 280 double-quote characters passes the ceiling
(trimmed length exactly 280) and is broadcast as 1680 characters. -/
theorem sanitize_expands_past_length_limit :
    (jsTrim (List.replicate 280 '"')).length = 280 ∧
      ¬ MAX_MESSAGE_LENGTH < (jsTrim (List.replicate 280 '"')).length ∧
      (outcomeText (handleMessage rlInit [] lbInit testClient
          ⟨List.replicate 280 '"', false, none, none⟩ 0 (str "m1") (str "wt")).1).map
        List.length = some 1680 ∧
      MAX_MESSAGE_LENGTH < 1680 := by
  refine ⟨by decide, by decide, ?_, by decide⟩
  decide

/- ## C3: reply previews and the reply cache -/

theorem alookup_nil {α : Type} (k : Str) : alookup ([] : List (Str × α)) k = none := rfl

theorem alookup_cons {α : Type} (p : Str × α) (l : List (Str × α)) (k : Str) :
    alookup (p :: l) k = if p.1 = k then some p.2 else alookup l k := by
  unfold alookup
  by_cases h : p.1 = k
  · rw [List.find?_cons_of_pos _ (by simpa using h), if_pos h]
    rfl
  · rw [List.find?_cons_of_neg _ (by simpa using h), if_neg h]

theorem alookup_eq_none_of_not_mem {α : Type} {l : List (Str × α)} {k : Str}
    (h : k ∉ l.map Prod.fst) : alookup l k = none := by
  induction l with
  | nil => rfl
  | cons p l ih =>
    have h1 : ¬ p.1 = k := fun he => h (by rw [List.map_cons, ← he]; exact List.mem_cons_self _ _)
    have h2 : k ∉ l.map Prod.fst := fun hm => h (by rw [List.map_cons]; exact List.mem_cons_of_mem _ hm)
    rw [alookup_cons, if_neg h1]
    exact ih h2

theorem cacheLookup_cleanup (now : Nat) (c : MsgCache) (k : Str)
    (h : (c.map Prod.fst).Nodup) :
    cacheLookup (cleanupOldMessages now c) k =
      match cacheLookup c k with
      | some m => if MESSAGE_TTL < now - m.timestamp then none else some m
      | none => none := by
  simp only [cacheLookup]
  induction c with
  | nil => rfl
  | cons p c ih =>
    rw [List.map_cons, List.nodup_cons] at h
    obtain ⟨hk, hnd⟩ := h
    rw [alookup_cons]
    by_cases hold : MESSAGE_TTL < now - p.2.timestamp
    · have hdrop : cleanupOldMessages now (p :: c) = cleanupOldMessages now c := by
        simp only [cleanupOldMessages, List.filter_cons]
        have : (decide ¬(MESSAGE_TTL < now - p.2.timestamp)) = false := by
          simp [hold]
        rw [this]
        simp [cleanupOldMessages]
      rw [hdrop]
      by_cases hp : p.1 = k
      · rw [if_pos hp]
        have hnone : alookup (cleanupOldMessages now c) k = none := by
          apply alookup_eq_none_of_not_mem
          intro hm
          rcases List.mem_map.mp hm with ⟨q, hq1, hq2⟩
          rw [hp] at hk
          exact hk (List.mem_map.mpr ⟨q, List.mem_of_mem_filter hq1, hq2⟩)
        rw [hnone]
        simp [hold]
      · rw [if_neg hp]
        exact ih hnd
    · have hkeep : cleanupOldMessages now (p :: c) = p :: cleanupOldMessages now c := by
        simp only [cleanupOldMessages, List.filter_cons]
        have : (decide ¬(MESSAGE_TTL < now - p.2.timestamp)) = true := by
          simp [hold]
        rw [this]
        simp [cleanupOldMessages]
      rw [hkeep, alookup_cons]
      by_cases hp : p.1 = k
      · rw [if_pos hp, if_pos hp]
        simp [hold]
      · rw [if_neg hp, if_neg hp]
        exact ih hnd

/-- C3 counterexample. A `replyTo` reference 36 time-units after the
original message was cached — hence more than 35 time-units earlier —
with the periodic sweeps having run at 10, 20 and 30 time-units, still
resolves: B sends `replyTo = mA` at time 36000 and the outbound
broadcast carries the full reply preview (text "hi" and the original
coordinates), because the lookup never checks entry age and no sweep has
purged the entry yet. -/
theorem reply_preview_stale_counterexample :
    cacheLookup c3CacheA (str "mA") = some ⟨str "hi", 1, 2, 0⟩ ∧
      outcomeReplyPreview c3ReplyOutcome = some (some (str "hi"), some 1, some 2) := by
  decide

theorem alookup_aset_self {α : Type} (l : List (Str × α)) (k : Str) (v : α) :
    alookup (aset l k v) k = some v := by
  rw [aset, alookup_cons, if_pos rfl]

/-- C3 amended. Reply resolution is purely cache-membership based: an
accepted message whose truthy `replyTo` resolves in the cache carries the
preview (first 50 characters of the cached text plus the cached
coordinates) regardless of entry age, and carries no preview fields when
the id is absent; the periodic sweep deletes exactly the entries strictly
older than 35 time-units at sweep time (so a reference under 35
time-units after caching always resolves, and one after a sweep that ran
more than 35 time-units after caching does not); every cached message
records its text, coordinates and caching time. -/
theorem reply_preview_cache_policy :
    (∀ rl cache lb client data now freshId instanceId b rid,
        outcomeMsg (handleMessage rl cache lb client data now freshId instanceId).1 = some b →
        data.replyTo = some rid → rid ≠ [] →
        (∀ parent, cacheLookup cache rid = some parent →
            b.replyTo = some rid ∧ b.replyToText = some (parent.text.take 50) ∧
              b.replyToLat = some parent.lat ∧ b.replyToLng = some parent.lng) ∧
          (cacheLookup cache rid = none →
            b.replyTo = none ∧ b.replyToText = none ∧ b.replyToLat = none ∧
              b.replyToLng = none)) ∧
      (∀ now c k, (c.map Prod.fst).Nodup →
          cacheLookup (cleanupOldMessages now c) k =
            match cacheLookup c k with
            | some m => if MESSAGE_TTL < now - m.timestamp then none else some m
            | none => none) ∧
      (∀ c id text lat lng now,
          cacheLookup (cacheMessage c id text lat lng now) id = some ⟨text, lat, lng, now⟩) := by
  refine ⟨?_, cacheLookup_cleanup, ?_⟩
  · intro rl cache lb client data now freshId instanceId b rid h hr hne
    simp only [handleMessage] at h
    split at h
    · simp [outcomeMsg] at h
    · split at h
      · simp [outcomeMsg] at h
      · constructor
        · intro parent hparent
          simp only [hr] at h
          rw [if_pos hne] at h
          simp only [hparent] at h
          simp only [outcomeMsg, Option.some.injEq] at h
          subst h
          simp
        · intro hnone
          simp only [hr] at h
          rw [if_pos hne] at h
          simp only [hnone] at h
          simp only [outcomeMsg, Option.some.injEq] at h
          subst h
          simp
  · intro c id text lat lng now
    rw [cacheMessage, cacheLookup, alookup_aset_self]

/-- Witness for the amended C3: a sweep at 40 time-units removes an entry
cached at time 0, so a later reference no longer resolves. -/
theorem reply_preview_cache_policy_witness :
    cacheLookup (cleanupOldMessages 40000 [(str "mA", ⟨str "hi", 1, 2, 0⟩)]) (str "mA") = none := by
  have h := reply_preview_cache_policy.2.1 40000
    [(str "mA", (⟨str "hi", 1, 2, 0⟩ : CachedMsg))] (str "mA") (by decide)
  rw [h]
  decide

/- ## C7: leaderboard counts -/

/-- C7 counterexample. The leaderboard key joins city and country with an
unescaped `|`, so distinct (city, country) pairs can share one key: after
one accepted message from (city `a|b`, country `c`) and one from (city
`a`, country `b|c`), the leaderboard count read for (`a`, `b|c`) is 2
although only 1 accepted message carried that city and country. -/
theorem leaderboard_key_collision_counterexample :
    runLB lbInit c7Trace (lbKey (str "a") (str "b|c")) = 2 ∧
      c7Trace.countP
          (fun e => decide (e.1 = some (str "a")) && decide (e.2 = some (str "b|c"))) = 1 ∧
      runLB lbInit c7Trace (lbKey (str "a") (str "b|c")) ≠
        c7Trace.countP
          (fun e => decide (e.1 = some (str "a")) && decide (e.2 = some (str "b|c"))) := by
  decide

theorem runLB_count (tr : List LocTag) (lb : Leaderboard) (k : Str) :
    runLB lb tr k =
      lb k + tr.countP (fun e => truthy e.1 && decide (lbKey (e.1.getD []) (e.2.getD []) = k)) := by
  induction tr generalizing lb with
  | nil => simp [runLB]
  | cons e es ih =>
    rw [runLB, ih, List.countP_cons]
    have hstep : lbAfterMessage e.1 e.2 lb k =
        lb k + (if truthy e.1 && decide (lbKey (e.1.getD []) (e.2.getD []) = k) then 1 else 0) := by
      unfold lbAfterMessage incrementCityMessages
      by_cases h1 : truthy e.1
      · by_cases h2 : k = lbKey (e.1.getD []) (e.2.getD [])
        · simp [h1, h2]
        · have h2' : ¬ lbKey (e.1.getD []) (e.2.getD []) = k := fun he => h2 he.symm
          simp [h1, h2, h2']
      · simp [h1]
    rw [hstep]
    omega

/-- C7 amended. Leaderboard counts are monotone non-decreasing (single
increments only, over any trace extension), and the count stored under a
key equals the number of accepted city-tagged messages whose
`city + '|' + country` join equals that key; distinct (city, country)
pairs may collide on one key when the names contain `|`. -/
theorem leaderboard_monotone_and_key_counts :
    (∀ (lb : Leaderboard) (city country k : Str),
        lb k ≤ incrementCityMessages city country lb k) ∧
      (∀ (lb : Leaderboard) (tr1 tr2 : List LocTag) (k : Str),
          runLB lb tr1 k ≤ runLB lb (tr1 ++ tr2) k) ∧
      (∀ (tr : List LocTag) (k : Str),
          runLB lbInit tr k =
            tr.countP (fun e => truthy e.1 && decide (lbKey (e.1.getD []) (e.2.getD []) = k))) := by
  refine ⟨?_, ?_, ?_⟩
  · intro lb city country k
    unfold incrementCityMessages
    by_cases h : k = lbKey city country <;> simp [h]
  · intro lb tr1 tr2 k
    rw [runLB_count, runLB_count, List.countP_append]
    omega
  · intro tr k
    rw [runLB_count]
    simp [lbInit]

/- ## C2: online count and expiry -/

theorem alookup_aset_ne {α : Type} (l : List (Str × α)) {k k' : Str} (h : ¬ k' = k) (v : α) :
    alookup (aset l k v) k' = alookup l k' := by
  rw [aset, alookup_cons, if_neg (fun he => h he.symm)]
  induction l with
  | nil => rfl
  | cons p l ih =>
    by_cases hp : p.1 = k
    · have hd : (decide ¬ (p.1 = k)) = false := by simp [hp]
      rw [List.filter_cons, hd]
      have hp' : ¬ p.1 = k' := fun he => h (hp ▸ he : k = k').symm
      rw [if_neg (show ¬ (false = true) by decide), alookup_cons, if_neg hp']
      exact ih
    · have hd : (decide ¬ (p.1 = k)) = true := by simp [hp]
      rw [List.filter_cons, hd, if_pos rfl, alookup_cons, alookup_cons]
      by_cases hp' : p.1 = k'
      · rw [if_pos hp', if_pos hp']
      · rw [if_neg hp', if_neg hp']
        exact ih

/-- C2 counterexample. Instance i1 heartbeats once at time 0 with 5
clients and then stops; instance i2 keeps heartbeating (10, 50, 90, 130)
with 3 clients. At time 135 — more than 60 time-units after i1 last
refreshed — the total is still 8, because `expire` re-arms one deadline
for the whole hash, so i1 never drops out while i2 keeps refreshing; the
claimed per-instance-expiry total would be 3. -/
theorem online_count_counterexample :
    getTotalOnlineCount (runOnline onlineInit c2Trace) 135 = 8 ∧
      perInstanceExpiryTotal c2Trace 135 = 3 ∧
      getTotalOnlineCount (runOnline onlineInit c2Trace) 135 ≠
        perInstanceExpiryTotal c2Trace 135 := by
  decide

theorem runOnline_total_zero (tr : List OnlineUpdate) (s : OnlineStore) (now : Nat)
    (htr : ∀ u ∈ tr, u.time + 60 ≤ now)
    (hs : s.deadline = none ∨ ∃ d, s.deadline = some d ∧ d ≤ now) :
    getTotalOnlineCount (runOnline s tr) now = 0 := by
  induction tr generalizing s with
  | nil =>
    rcases hs with h | ⟨d, hd, hdn⟩
    · simp [runOnline, getTotalOnlineCount, hashLive, h]
    · simp [runOnline, getTotalOnlineCount, hashLive, hd, Nat.not_lt.mpr hdn]
  | cons u us ih =>
    rw [runOnline]
    apply ih
    · intro u' hu'
      exact htr u' (List.mem_cons_of_mem _ hu')
    · exact Or.inr ⟨u.time + 60, rfl, htr u (List.mem_cons_self _ _)⟩

/-- C2 amended. The online-count hash carries a single expiry shared by
all instance fields, re-armed to 60 time-units by every heartbeat from
any instance: the total is 0 once 60 time-units pass after every
heartbeat in the trace, a heartbeat of one instance leaves every other
instance record (however stale) visible until the new shared deadline,
and each update sets the hash deadline to its own time plus 60. -/
theorem online_count_shared_expiry :
    (∀ (tr : List OnlineUpdate) (now : Nat), (∀ u ∈ tr, u.time + 60 ≤ now) →
        getTotalOnlineCount (runOnline onlineInit tr) now = 0) ∧
      (∀ (s : OnlineStore) (j : Str) (c t : Nat) (i : Str), ¬ i = j →
          ∀ now, now < t + 60 →
            alookup (hashLive (updateOnlineCount s j c t) now) i =
              alookup (hashLive s t) i) ∧
      (∀ (s : OnlineStore) (j : Str) (c t : Nat),
          (updateOnlineCount s j c t).deadline = some (t + 60)) := by
  refine ⟨?_, ?_, fun s j c t => rfl⟩
  · intro tr now htr
    exact runOnline_total_zero tr onlineInit now htr (Or.inl rfl)
  · intro s j c t i hij now hnow
    have h1 : hashLive (updateOnlineCount s j c t) now = hsetField (hashLive s t) j c := by
      unfold updateOnlineCount hashLive
      dsimp only
      rw [if_pos hnow]
    rw [h1]
    exact alookup_aset_ne _ hij _

/-- Witness for the amended C2: 120 time-units after the last heartbeat
of the concrete trace, the total online count is 0. -/
theorem online_count_shared_expiry_witness :
    getTotalOnlineCount (runOnline onlineInit c2Trace) 250 = 0 :=
  online_count_shared_expiry.1 c2Trace 250 (by decide)

/- ## C8: identify idempotence -/

/-- C8 counterexample. A second identical identify call is not a no-op:
starting from a fresh session, the first identify with a valid id
publishes one presence snapshot; the repeated identical identify leaves
the session unchanged but runs `addUser` again, re-arming the presence
TTL and publishing a second snapshot, so the state differs from the
state after the first call alone. -/
theorem identify_not_noop_counterexample :
    identifyEvent (identifyEvent c8Init (some c8Vid) 0 (str "wt")) (some c8Vid) 5 (str "wt") ≠
        identifyEvent c8Init (some c8Vid) 0 (str "wt") ∧
      (identifyEvent c8Init (some c8Vid) 0 (str "wt")).published.length = 1 ∧
      (identifyEvent (identifyEvent c8Init (some c8Vid) 0 (str "wt")) (some c8Vid) 5
          (str "wt")).published.length = 2 := by
  decide

theorem addUser_client (st : IdentifyState) (u : RedisUser) (now : Nat) :
    (addUser st u now).client = st.client := rfl

theorem incrementAllTimeUsers_client (st : IdentifyState) (fp : Str) :
    (incrementAllTimeUsers st fp).client = st.client := by
  unfold incrementAllTimeUsers
  split <;> rfl

/-- On a session already carrying the identified fingerprint and visitor
id, a further identify with the same id only re-runs `addUser`. -/
theorem identifyEvent_already_identified (s : IdentifyState) (v : Str) (n : Nat) (inst : Str)
    (hg : v ≠ [] ∧ isValidVisitorId v = true)
    (hfp : s.client.fingerprint = v.take 12) (hvid : s.client.visitorId = some v) :
    identifyEvent s (some v) n inst =
      addUser s ⟨s.client.id, v.take 12, s.client.location.lat, s.client.location.lng,
                 s.client.location.city, s.client.location.country, inst⟩ n := by
  simp only [identifyEvent, if_pos hg]
  have hc1 : { s.client with visitorId := some v, fingerprint := v.take 12 } = s.client := by
    cases hcl : s.client with
    | mk cid cfp cvid cloc cconn =>
      rw [hcl] at hfp hvid
      dsimp only at hfp hvid ⊢
      rw [hfp, hvid]
  rw [hc1]
  rw [if_neg (fun hx => hx hfp)]

/-- C8 amended. One valid identify sets the session fingerprint to the
first 12 characters of the identifier, and a repeated identical identify
leaves the session, the all-time counter and the seen set exactly as
after the first call and rewrites a presence record with identical
content — but it is not a complete no-op: it re-arms the presence TTL
from the repeat time and publishes one additional presence snapshot. -/
theorem identify_idempotent_up_to_republish (st : IdentifyState) (v : Str) (now now' : Nat)
    (inst : Str) (hv : isValidVisitorId v = true) :
    (identifyEvent st (some v) now inst).client.fingerprint = v.take 12 ∧
      (identifyEvent (identifyEvent st (some v) now inst) (some v) now' inst).client =
        (identifyEvent st (some v) now inst).client ∧
      (identifyEvent (identifyEvent st (some v) now inst) (some v) now' inst).allTime =
        (identifyEvent st (some v) now inst).allTime ∧
      (identifyEvent (identifyEvent st (some v) now inst) (some v) now' inst).seen =
        (identifyEvent st (some v) now inst).seen ∧
      presenceLookup
          (identifyEvent (identifyEvent st (some v) now inst) (some v) now' inst).presence
          st.client.id =
        some (⟨st.client.id, v.take 12, st.client.location.lat, st.client.location.lng,
               st.client.location.city, st.client.location.country, inst⟩, now' + USER_TTL) ∧
      (identifyEvent (identifyEvent st (some v) now inst) (some v) now' inst).published.length =
        (identifyEvent st (some v) now inst).published.length + 1 := by
  have hne : v ≠ [] := by
    intro he
    rw [he] at hv
    simp [isValidVisitorId] at hv
  have hguard : v ≠ [] ∧ isValidVisitorId v = true := ⟨hne, hv⟩
  have hclient : ∀ (s : IdentifyState) (n : Nat),
      (identifyEvent s (some v) n inst).client =
        { s.client with visitorId := some v, fingerprint := v.take 12 } := by
    intro s n
    simp only [identifyEvent, if_pos hguard]
    split
    · rw [addUser_client, incrementAllTimeUsers_client]
    · rw [addUser_client]
  have hfp1 : (identifyEvent st (some v) now inst).client.fingerprint = v.take 12 := by
    rw [hclient]
  have hvid1 : (identifyEvent st (some v) now inst).client.visitorId = some v := by
    rw [hclient]
  have h2 := identifyEvent_already_identified (identifyEvent st (some v) now inst) v now' inst
    hguard hfp1 hvid1
  refine ⟨hfp1, ?_, ?_, ?_, ?_, ?_⟩
  · rw [h2, addUser_client]
  · rw [h2]
    rfl
  · rw [h2]
    rfl
  · rw [h2]
    have hid : (identifyEvent st (some v) now inst).client.id = st.client.id := by
      rw [hclient]
    have hloc : (identifyEvent st (some v) now inst).client.location = st.client.location := by
      rw [hclient]
    show alookup (aset _ _ _) _ = _
    rw [hid, hloc]
    exact alookup_aset_self _ _ _
  · rw [h2]
    rfl

/-- Witness for the amended C8: concrete repeated identify leaves the
session identical and publishes exactly one extra snapshot. -/
theorem identify_idempotent_up_to_republish_witness :
    (identifyEvent (identifyEvent c8Init (some c8Vid) 0 (str "wt")) (some c8Vid) 5
        (str "wt")).published.length =
      (identifyEvent c8Init (some c8Vid) 0 (str "wt")).published.length + 1 :=
  (identify_idempotent_up_to_republish c8Init c8Vid 0 5 (str "wt") (by decide)).2.2.2.2.2

/- ## C1: sliding-window rate limiter -/

theorem Limits_get_set_same (l : Limits) (ty : RLType) (ts : List Nat) :
    (l.set ty ts).get ty = ts := by
  cases ty <;> rfl

theorem Limits_get_set_ne (l : Limits) {ty ty' : RLType} (h : ¬ ty' = ty) (ts : List Nat) :
    (l.set ty ts).get ty' = l.get ty' := by
  cases ty <;> cases ty' <;> first | rfl | exact absurd rfl h

theorem rlEntry_rlSet_same (rl : RLMap) (cid : Str) (l : Limits) (ty : RLType) :
    rlEntry (rlSet rl cid l) cid ty = l.get ty := by
  unfold rlEntry rlSet
  rw [if_pos rfl]

theorem rlEntry_rlSet_ne (rl : RLMap) {cid cid' : Str} (h : ¬ cid' = cid) (l : Limits)
    (ty : RLType) : rlEntry (rlSet rl cid l) cid' ty = rlEntry rl cid' ty := by
  unfold rlEntry rlSet
  rw [if_neg h]

theorem filter_window_filter {n n' : Nat} (h : n ≤ n') (l : List Nat) :
    (l.filter (fun t => n - t < RATE_LIMIT_WINDOW)).filter
        (fun t => n' - t < RATE_LIMIT_WINDOW) =
      l.filter (fun t => n' - t < RATE_LIMIT_WINDOW) := by
  induction l with
  | nil => rfl
  | cons a l ih =>
    by_cases h1 : n - a < RATE_LIMIT_WINDOW
    · by_cases h2 : n' - a < RATE_LIMIT_WINDOW
      · simp [List.filter_cons, h1, h2, ih]
      · simp [List.filter_cons, h1, h2, ih]
    · have h2 : ¬ n' - a < RATE_LIMIT_WINDOW := by
        have := Nat.sub_le_sub_right h a
        omega
      simp [List.filter_cons, h1, h2, ih]

theorem countP_window_eq_length_filter (l : List Nat) (n : Nat) :
    l.countP (fun t => n - t < RATE_LIMIT_WINDOW) =
      (l.filter (fun t => n - t < RATE_LIMIT_WINDOW)).length :=
  List.countP_eq_length_filter _ _

/-- Explicit form of one rate-limiter call (both class ceilings are 120). -/
theorem checkRateLimit_eq (rl : RLMap) (cid : Str) (ty : RLType) (now : Nat) :
    checkRateLimit rl cid ty now =
      if 120 ≤ (((rl cid).get ty).filter (fun t => now - t < RATE_LIMIT_WINDOW)).length
      then (false, rlSet rl cid ((rl cid).set ty
             (((rl cid).get ty).filter (fun t => now - t < RATE_LIMIT_WINDOW))))
      else (true, rlSet rl cid ((rl cid).set ty
             ((((rl cid).get ty).filter (fun t => now - t < RATE_LIMIT_WINDOW)) ++ [now]))) := by
  cases ty <;> rfl

theorem RLInv_step {rl : RLMap} {acc : Str → RLType → List Nat} {b : Nat} (c : Call)
    (h : RLInv rl acc b) (hb : b ≤ c.now) :
    RLInv (checkRateLimit rl c.cid c.ty c.now).2
      (fun cid ty =>
        acc cid ty ++
          (if c.cid = cid ∧ c.ty = ty ∧ (checkRateLimit rl c.cid c.ty c.now).1 = true
           then [c.now] else []))
      c.now := by
  intro cid ty n hn
  have hbn : b ≤ n := le_trans hb hn
  rw [checkRateLimit_eq]
  by_cases hc : 120 ≤
      (((rl c.cid).get c.ty).filter (fun t => c.now - t < RATE_LIMIT_WINDOW)).length
  · rw [if_pos hc]
    dsimp only
    simp only [Bool.false_eq_true, and_false, if_false, List.append_nil]
    by_cases hcid : cid = c.cid
    · subst hcid
      by_cases hty : ty = c.ty
      · subst hty
        rw [rlEntry_rlSet_same, Limits_get_set_same, filter_window_filter hn]
        exact h c.cid c.ty n hbn
      · rw [rlEntry_rlSet_same, Limits_get_set_ne _ hty]
        exact h c.cid ty n hbn
    · rw [rlEntry_rlSet_ne _ hcid]
      exact h cid ty n hbn
  · rw [if_neg hc]
    dsimp only
    by_cases hcid : cid = c.cid
    · subst hcid
      by_cases hty : ty = c.ty
      · subst hty
        rw [rlEntry_rlSet_same, Limits_get_set_same,
          if_pos (⟨rfl, rfl, rfl⟩ : c.cid = c.cid ∧ c.ty = c.ty ∧ true = true),
          List.filter_append, List.filter_append, filter_window_filter hn]
        have hh := h c.cid c.ty n hbn
        rw [rlEntry] at hh
        rw [hh]
      · rw [rlEntry_rlSet_same, Limits_get_set_ne _ hty,
          if_neg (fun hx => hty hx.2.1.symm), List.append_nil]
        exact h c.cid ty n hbn
    · rw [rlEntry_rlSet_ne _ hcid, if_neg (fun hx => hcid hx.1.symm), List.append_nil]
      exact h cid ty n hbn

theorem acceptedTimes_append (rl : RLMap) (cid : Str) (ty : RLType) (xs ys : List Call) :
    acceptedTimes rl cid ty (xs ++ ys) =
      acceptedTimes rl cid ty xs ++ acceptedTimes (runRL rl xs) cid ty ys := by
  induction xs generalizing rl with
  | nil => rfl
  | cons c cs ih =>
    simp only [List.cons_append, acceptedTimes, runRL, List.append_eq]
    rw [ih, List.append_assoc]

theorem RLInv_congr {rl : RLMap} {f g : Str → RLType → List Nat} {b : Nat}
    (hfg : ∀ cid ty, f cid ty = g cid ty) (h : RLInv rl f b) : RLInv rl g b := by
  intro cid ty n hn
  rw [← hfg]
  exact h cid ty n hn

theorem RLInv_runRL (calls : List Call) (rl : RLMap) (acc : Str → RLType → List Nat) (b : Nat)
    (h : RLInv rl acc b)
    (hsorted : List.Pairwise (· ≤ ·) (calls.map Call.now))
    (hge : ∀ c ∈ calls, b ≤ c.now)
    (b' : Nat) (hb' : b ≤ b') (hle : ∀ c ∈ calls, c.now ≤ b') :
    RLInv (runRL rl calls) (fun cid ty => acc cid ty ++ acceptedTimes rl cid ty calls) b' := by
  induction calls generalizing rl acc b with
  | nil =>
    have hw : RLInv rl acc b' := fun cid ty n hn => h cid ty n (le_trans hb' hn)
    exact RLInv_congr (fun cid ty => (List.append_nil (acc cid ty)).symm) hw
  | cons c cs ih =>
    rw [List.map_cons, List.pairwise_cons] at hsorted
    obtain ⟨hhead, htail⟩ := hsorted
    have hbc : b ≤ c.now := hge c (List.mem_cons_self _ _)
    have hstep := RLInv_step c h hbc
    have hcs_ge : ∀ c' ∈ cs, c.now ≤ c'.now := fun c' hc' =>
      hhead _ (List.mem_map.mpr ⟨c', hc', rfl⟩)
    have hcs_le : ∀ c' ∈ cs, c'.now ≤ b' := fun c' hc' => hle c' (List.mem_cons_of_mem _ hc')
    have hcb' : c.now ≤ b' := hle c (List.mem_cons_self _ _)
    have hind := ih (checkRateLimit rl c.cid c.ty c.now).2 _ c.now hstep htail hcs_ge hcb' hcs_le
    rw [runRL]
    refine RLInv_congr (fun cid ty => ?_) hind
    simp only [acceptedTimes, List.append_assoc]

theorem accepted_pred_bound (calls : List Call) (rl : RLMap) (acc : Str → RLType → List Nat)
    (b : Nat) (h : RLInv rl acc b)
    (hsorted : List.Pairwise (· ≤ ·) (calls.map Call.now))
    (hge : ∀ c ∈ calls, b ≤ c.now) :
    ∀ cid ty P t S, acceptedTimes rl cid ty calls = P ++ t :: S →
      (acc cid ty ++ P).countP (fun s => t - s < RATE_LIMIT_WINDOW) < 120 := by
  induction calls generalizing rl acc b with
  | nil =>
    intro cid ty P t S hdec
    simp only [acceptedTimes] at hdec
    exact absurd hdec (by simp)
  | cons c cs ih =>
    rw [List.map_cons, List.pairwise_cons] at hsorted
    obtain ⟨hhead, htail⟩ := hsorted
    have hbc : b ≤ c.now := hge c (List.mem_cons_self _ _)
    have hstep := RLInv_step c h hbc
    have hcs_ge : ∀ c' ∈ cs, c.now ≤ c'.now := fun c' hc' =>
      hhead _ (List.mem_map.mpr ⟨c', hc', rfl⟩)
    intro cid ty P t S hdec
    simp only [acceptedTimes] at hdec
    by_cases hcond : c.cid = cid ∧ c.ty = ty ∧ (checkRateLimit rl c.cid c.ty c.now).1 = true
    · rw [if_pos hcond, List.singleton_append] at hdec
      cases P with
      | nil =>
        rw [List.nil_append] at hdec
        injection hdec with h1 h2
        subst h1
        rw [List.append_nil]
        obtain ⟨hc1, hc2, hok⟩ := hcond
        subst hc1
        subst hc2
        rw [checkRateLimit_eq] at hok
        by_cases hcap : 120 ≤
            (((rl c.cid).get c.ty).filter (fun s => c.now - s < RATE_LIMIT_WINDOW)).length
        · rw [if_pos hcap] at hok
          exact absurd hok (by simp)
        · have hinv := h c.cid c.ty c.now hbc
          rw [rlEntry] at hinv
          rw [List.countP_eq_length_filter, ← hinv]
          omega
      | cons p P' =>
        injection hdec with h1 h2
        subst h1
        have hacc' := ih (checkRateLimit rl c.cid c.ty c.now).2 _ c.now hstep htail hcs_ge
          cid ty P' t S h2
        rw [if_pos hcond, List.append_assoc, List.singleton_append] at hacc'
        exact hacc'
    · rw [if_neg hcond, List.nil_append] at hdec
      have hacc' := ih (checkRateLimit rl c.cid c.ty c.now).2 _ c.now hstep htail hcs_ge
        cid ty P t S hdec
      rw [if_neg hcond, List.append_nil] at hacc'
      exact hacc'

theorem window_count_of_pred_bound (L : List Nat) (a : Nat)
    (h : ∀ P t S, L = P ++ t :: S → P.countP (fun s => t - s < RATE_LIMIT_WINDOW) < 120) :
    L.countP (fun t => a ≤ t ∧ t < a + RATE_LIMIT_WINDOW) ≤ 120 := by
  induction L using List.reverseRecOn with
  | nil => simp
  | append_singleton P t ih =>
    rw [List.countP_append]
    by_cases ht : a ≤ t ∧ t < a + RATE_LIMIT_WINDOW
    · have h1 : P.countP (fun s => a ≤ s ∧ s < a + RATE_LIMIT_WINDOW) ≤
          P.countP (fun s => t - s < RATE_LIMIT_WINDOW) := by
        apply List.countP_mono_left
        intro s hs hsp
        simp only [decide_eq_true_eq] at hsp ⊢
        omega
      have h2 := h P t [] rfl
      have h3 : List.countP (fun s => decide (a ≤ s ∧ s < a + RATE_LIMIT_WINDOW)) [t] ≤ 1 :=
        le_trans (List.countP_le_length _) (by simp)
      omega
    · have h4 : List.countP (fun s => decide (a ≤ s ∧ s < a + RATE_LIMIT_WINDOW)) [t] = 0 := by
        simp [ht]
      have h5 := ih (fun P' t' S' hdec => h P' t' (S' ++ [t])
        (by rw [hdec, List.append_assoc, List.cons_append]))
      omega

/-- C1. For every identity and action class separately, over any
chronological trace of rate-limiter calls: (i) the accepted timestamps
falling in any window of RATE_LIMIT_WINDOW time-units number at most 120;
(ii) a further call made while 120 accepted timestamps are still inside
its window returns false and records nothing — in particular the 121st
call within one window is denied; (iii) a call made while fewer than 120
accepted timestamps are inside its window returns true and records its
timestamp. -/
theorem rate_limiter_window_bound (calls : List Call) (cid : Str) (ty : RLType) (now a : Nat)
    (hsorted : List.Pairwise (· ≤ ·) (calls.map Call.now))
    (hlast : ∀ c ∈ calls, c.now ≤ now) :
    (acceptedTimes rlInit cid ty calls).countP
        (fun t => a ≤ t ∧ t < a + RATE_LIMIT_WINDOW) ≤ MAX_MESSAGES_PER_MINUTE ∧
      (MAX_MESSAGES_PER_MINUTE ≤
          (acceptedTimes rlInit cid ty calls).countP (fun t => now - t < RATE_LIMIT_WINDOW) →
        (checkRateLimit (runRL rlInit calls) cid ty now).1 = false ∧
          acceptedTimes rlInit cid ty (calls ++ [⟨cid, ty, now⟩]) =
            acceptedTimes rlInit cid ty calls) ∧
      ((acceptedTimes rlInit cid ty calls).countP (fun t => now - t < RATE_LIMIT_WINDOW) <
          MAX_MESSAGES_PER_MINUTE →
        (checkRateLimit (runRL rlInit calls) cid ty now).1 = true ∧
          acceptedTimes rlInit cid ty (calls ++ [⟨cid, ty, now⟩]) =
            acceptedTimes rlInit cid ty calls ++ [now]) := by
  have hinv0 : RLInv rlInit (fun _ _ => []) 0 := fun _ ty _ _ => by cases ty <;> rfl
  have hge0 : ∀ c ∈ calls, 0 ≤ c.now := fun c _ => Nat.zero_le _
  have hbound := accepted_pred_bound calls rlInit (fun _ _ => []) 0 hinv0 hsorted hge0
  have hrun := RLInv_runRL calls rlInit (fun _ _ => []) 0 hinv0 hsorted hge0 now
    (Nat.zero_le _) hlast
  have hinv := hrun cid ty now (le_refl now)
  simp only [List.nil_append] at hinv
  rw [rlEntry] at hinv
  have hcount : (((runRL rlInit calls) cid).get ty |>.filter
        (fun t => now - t < RATE_LIMIT_WINDOW)).length =
      (acceptedTimes rlInit cid ty calls).countP (fun t => now - t < RATE_LIMIT_WINDOW) := by
    rw [hinv, List.countP_eq_length_filter]
  refine ⟨?_, ?_, ?_⟩
  · show _ ≤ 120
    apply window_count_of_pred_bound
    intro P t S hdec
    have hb := hbound cid ty P t S hdec
    simpa only [List.nil_append] using hb
  · intro h120
    have hcap : 120 ≤ (((runRL rlInit calls) cid).get ty |>.filter
        (fun t => now - t < RATE_LIMIT_WINDOW)).length := by
      rw [hcount]
      exact h120
    have hfalse : (checkRateLimit (runRL rlInit calls) cid ty now).1 = false := by
      rw [checkRateLimit_eq, if_pos hcap]
    refine ⟨hfalse, ?_⟩
    rw [acceptedTimes_append]
    simp only [acceptedTimes]
    rw [if_neg (fun hx => by rw [hfalse] at hx; exact absurd hx.2.2 (by simp)),
      List.nil_append, List.append_nil]
  · intro hlt
    have hcap : ¬ 120 ≤ (((runRL rlInit calls) cid).get ty |>.filter
        (fun t => now - t < RATE_LIMIT_WINDOW)).length := by
      rw [hcount]
      simp only [MAX_MESSAGES_PER_MINUTE] at hlt
      omega
    have htrue : (checkRateLimit (runRL rlInit calls) cid ty now).1 = true := by
      rw [checkRateLimit_eq, if_neg hcap]
    refine ⟨htrue, ?_⟩
    rw [acceptedTimes_append]
    simp only [acceptedTimes]
    simp [htrue]

/-- Witness for C1 at a concrete two-call trace. -/
theorem rate_limiter_window_bound_witness :
    (acceptedTimes rlInit (str "a") RLType.messages
        [⟨str "a", RLType.messages, 0⟩, ⟨str "a", RLType.messages, 5⟩]).countP
      (fun t => 0 ≤ t ∧ t < 0 + RATE_LIMIT_WINDOW) ≤ MAX_MESSAGES_PER_MINUTE :=
  (rate_limiter_window_bound
    [⟨str "a", RLType.messages, 0⟩, ⟨str "a", RLType.messages, 5⟩]
    (str "a") RLType.messages 10 0 (by decide) (by decide)).1
